import Mathlib

/-!
Shallow embedding of the hyspace real-time client core:
the AI-insight streaming request client (`useAIInsight`) and the
real-time WebSocket hook (`useRealtime`), together with theorems
settling the frozen claims about them.

JS strings are modelled as `List Char` (`Str`), with the JS string
methods the source uses (`slice`, `trim`, `startsWith`, `split`)
defined by structural recursion so that they evaluate.
-/

/-- A JS string: its sequence of characters. -/
abbrev Str := List Char

/-- Character sequence of a Lean string literal. -/
def str (s : String) : Str := s.data

/-- JS `s.startsWith(p)`. -/
def strStartsWith (s p : Str) : Bool :=
  match s, p with
  | _, [] => true
  | [], _ :: _ => false
  | c :: s', c' :: p' => c = c' && strStartsWith s' p'

/-- JS `s.endsWith(p)`. -/
def strEndsWith (s p : Str) : Bool :=
  strStartsWith s.reverse p.reverse

/-- JS `s.trim()`: strip whitespace from both ends. -/
def strTrim (s : Str) : Str :=
  ((s.dropWhile Char.isWhitespace).reverse.dropWhile Char.isWhitespace).reverse

/-- JS `s.split(sep)` for a one-character separator (the source splits on
`'\n'`): `""` yields `[""]`, a trailing separator yields a trailing `""`. -/
def splitOnChar (sep : Char) : Str → List Str
  | [] => [[]]
  | c :: rest =>
      match splitOnChar sep rest with
      | r :: rs => if c = sep then [] :: r :: rs else (c :: r) :: rs
      | [] => if c = sep then [[], []] else [[c]]

namespace Insight

/-- JS `Map<string, string>` modelled as an association list in insertion
order: `set` on an existing key updates in place, a new key is appended. -/
abbrev Cache := List (Str × Str)

/-- `Map.get`: value of the first (unique) binding of `k`, if any. -/
def cacheGet : Cache → Str → Option Str
  | [], _ => none
  | (k', v) :: rest, k => if k' = k then some v else cacheGet rest k

/-- `Map.set`: update the binding in place if present, else append. -/
def cacheSet : Cache → Str → Str → Cache
  | [], k, v => [(k, v)]
  | (k', v') :: rest, k, v =>
      if k' = k then (k, v) :: rest else (k', v') :: cacheSet rest k v

/-- `hashKey(queryType, results)` from `useAIInsight`:
`` `${queryType}:${JSON.stringify(results)}`.slice(0, 200) ``.
`results` is represented by its JSON serialization. -/
def hashKey (queryType : Str) (results : Str) : Str :=
  (queryType ++ str ":" ++ results).take 200

/-- Effect of one line of a chunk inside the `for (const line of lines)`
loop: skip (not a `data: ` line, or unparsable, or falsy `parsed.chunk`),
stop (the `[DONE]` sentinel hit `break`), or append a parsed chunk. -/
inductive LineEffect
  | skip
  | stop
  | append (c : Str)
deriving DecidableEq

/-- One line of the stream body, as in `generate`'s inner loop.
`parse payload = some c` models a successful `JSON.parse(payload)` whose
`chunk` field is the string `c`; `none` models a parse failure or a missing
`chunk` field (the `catch` ignores it).  `if (parsed.chunk)` is JS
truthiness, so an empty-string chunk is skipped. -/
def lineEffect (parse : Str → Option Str) (line : Str) : LineEffect :=
  if strStartsWith line (str "data: ") then
    let payload := strTrim (line.drop 6)
    if payload = str "[DONE]" then .stop
    else
      match parse payload with
      | some c => if c = [] then .skip else .append c
      | none => .skip
  else .skip

/-- The `for (const line of lines)` loop over one chunk's lines:
`break` on the sentinel ends only this chunk's processing. -/
def processLines (parse : Str → Option Str) : List Str → Str → Str
  | [], acc => acc
  | l :: ls, acc =>
      match lineEffect parse l with
      | .stop => acc
      | .append c => processLines parse ls (acc ++ c)
      | .skip => processLines parse ls acc

/-- One iteration of the `while (true)` read loop: decode a chunk,
`chunk.split('\n')`, and run the line loop. -/
def processChunk (parse : Str → Option Str) (acc : Str) (chunk : Str) : Str :=
  processLines parse (splitOnChar '\n' chunk) acc

/-- The whole read loop: the chunks delivered by `reader.read()` are folded
in order; the accumulator survives across chunks (the sentinel's `break`
only leaves the inner line loop). -/
def processStream (parse : Str → Option Str) (chunks : List Str) (acc : Str) : Str :=
  chunks.foldl (processChunk parse) acc

/-- A concrete instance of the payload parser: accepts exactly the
serialized form `\x7b"chunk":"<text>"\x7d` (no escapes), the shape the
server emits, as `JSON.parse` would. -/
def parseChunkJson (s : Str) : Option Str :=
  if strStartsWith s (str "\x7b\"chunk\":\"") ∧ strEndsWith s (str "\"\x7d") ∧ 12 ≤ s.length then
    some ((s.drop 10).take (s.length - 12))
  else none

/-- The hook's `InsightState`: `text`, `isLoading`, `error`. -/
structure InsightState where
  text : Str
  isLoading : Bool
  error : Option Str
deriving DecidableEq

/-- State written at the start of a network attempt:
`setState({ text: '', isLoading: true, error: null })`. -/
def startState : InsightState := ⟨[], true, none⟩

/-- State written by `clear()`:
`setState({ text: '', isLoading: false, error: null })`. -/
def clearState : InsightState := ⟨[], false, none⟩

/-- Outcome of the `fetch`/stream phase of `generate`:
a successful chunked body, an HTTP error (`!response.ok`, with the parsed
`errorData.detail` if present), or an abort of the in-flight transfer. -/
inductive FetchOutcome
  | ok (chunks : List Str)
  | httpError (detail : Option Str) (status : Nat)
  | aborted
deriving DecidableEq

/-- `errorData.detail || 'HTTP <status>'` (JS `||`: empty string is falsy). -/
def httpErrorMsg (detail : Option Str) (status : Nat) : Str :=
  match detail with
  | some d => if d = [] then str "HTTP " ++ (toString status).data else d
  | none => str "HTTP " ++ (toString status).data

/-- The `try`/`catch` tail of `generate`, resuming from state `st` after the
request was issued: on success the accumulated text is cached and published;
on HTTP error the message is surfaced with `isLoading: false`; on abort the
`catch` returns immediately (no state write, no cache write). -/
def finishNetwork (parse : Str → Option Str) (cache : Cache)
    (st : InsightState) (key : Str) (outcome : FetchOutcome) :
    Cache × InsightState :=
  match outcome with
  | .ok chunks =>
      let accumulated := processStream parse chunks []
      (cacheSet cache key accumulated, ⟨accumulated, false, none⟩)
  | .httpError detail status =>
      (cache, { st with isLoading := false, error := some (httpErrorMsg detail status) })
  | .aborted => (cache, st)

/-- Result of one `generate` call: the cache afterwards, the published
state, and how many network requests were issued (0 or 1). -/
structure GenResult where
  cache : Cache
  state : InsightState
  requests : Nat
deriving DecidableEq

/-- `generate(queryType, results)` run to completion with network outcome
`outcome`: `const cached = cache.get(key); if (cached) { ... return; }` is a
JS truthiness test, so both a missing key and a cached empty string fall
through to the network path. -/
def generate (parse : Str → Option Str) (cache : Cache)
    (queryType results : Str) (outcome : FetchOutcome) : GenResult :=
  let key := hashKey queryType results
  match cacheGet cache key with
  | some cached =>
      if cached = [] then
        let r := finishNetwork parse cache startState key outcome
        ⟨r.1, r.2, 1⟩
      else ⟨cache, ⟨cached, false, none⟩, 0⟩
  | none =>
      let r := finishNetwork parse cache startState key outcome
      ⟨r.1, r.2, 1⟩

/-- `generate` begun (cache miss, request in flight, state `startState`),
then `clear()` (abort + `setState(clearState)`), then the fetch
continuation observing the abort. -/
def cancelScenario (parse : Str → Option Str) (cache : Cache)
    (queryType results : Str) : Cache × InsightState :=
  finishNetwork parse cache clearState (hashKey queryType results) .aborted

end Insight

namespace Realtime

/-- `ConnectionStatus` from `useRealtime.ts`. -/
inductive ConnectionStatus
  | connecting
  | connected
  | disconnected
  | reconnecting
deriving DecidableEq

/-- `YieldUpdate` payload.  JS numbers are carried as `Int`: the handler
only stores them verbatim, it never computes with them. -/
structure YieldUpdate where
  current_yield : Int
  target_yield : Int
  delta : Int
  trend : Str
  process_step : Str
  lot_id : Str
  wafer_count : Int
deriving DecidableEq

/-- `EquipmentStatus` payload. -/
structure EquipmentStatus where
  equipment_id : Str
  status : Str
  previous_status : Str
  oee : Int
  temperature : Int
  utilization : Int
  wip_in_queue : Int
  estimated_completion : Str
deriving DecidableEq

/-- `WIPMovement` payload. -/
structure WIPMovement where
  lot_id : Str
  wafer_count : Int
  from_step : Str
  to_step : Str
  from_equipment : Str
  to_equipment : Str
  priority : Str
  progress : Int
  estimated_completion : Str
deriving DecidableEq

/-- `AlertData` payload. -/
structure AlertData where
  alert_id : Str
  title : Str
  message : Str
  severity : Str
  category : Str
  requires_action : Bool
  auto_escalate : Bool
deriving DecidableEq

/-- `FabMetrics.fab_metrics`. -/
structure FabMetricsCore where
  overall_yield : Int
  daily_output : Int
  active_lots : Int
  equipment_utilization : Int
deriving DecidableEq

/-- `FabMetrics.equipment_summary`. -/
structure EquipmentSummary where
  total : Int
  running : Int
  idle : Int
  maintenance : Int
  down : Int
deriving DecidableEq

/-- `FabMetrics.wip_summary`. -/
structure WIPSummary where
  total_lots : Int
  total_wafers : Int
  on_schedule : Int
  at_risk : Int
deriving DecidableEq

/-- `FabMetrics.alerts_summary`. -/
structure AlertsSummary where
  critical : Int
  error : Int
  warning : Int
  info : Int
deriving DecidableEq

/-- `FabMetrics` payload. -/
structure FabMetrics where
  fab_metrics : FabMetricsCore
  equipment_summary : EquipmentSummary
  wip_summary : WIPSummary
  alerts_summary : AlertsSummary
deriving DecidableEq

/-- The `data` of a `StreamMessage`, tagged by its `stream_type`.  A
message whose `stream_type` is none of the six known tags is `unknown s`
(`s` being that tag); such messages reach the `switch`'s implicit default
case.  Heartbeat data carries an optional `connection_id`. -/
inductive StreamPayload
  | yield_update (y : YieldUpdate)
  | equipment_status (e : EquipmentStatus)
  | wip_movement (w : WIPMovement)
  | alert (a : AlertData)
  | metrics (m : FabMetrics)
  | heartbeat (connection_id : Option Str)
  | unknown (stream_type : Str)
deriving DecidableEq

/-- The `stream_type` tag a payload arrived under. -/
def streamType : StreamPayload → Str
  | .yield_update _ => str "yield_update"
  | .equipment_status _ => str "equipment_status"
  | .wip_movement _ => str "wip_movement"
  | .alert _ => str "alert"
  | .metrics _ => str "metrics"
  | .heartbeat _ => str "heartbeat"
  | .unknown s => s

/-- A successfully parsed inbound `StreamMessage`. -/
structure StreamMessage where
  message_id : Str
  payload : StreamPayload
  timestamp : Str
  priority : Int
deriving DecidableEq

/-- JS `Map<string, EquipmentStatus>` in insertion order. -/
abbrev EquipMap := List (Str × EquipmentStatus)

/-- `Map.get` on the equipment map. -/
def equipGet : EquipMap → Str → Option EquipmentStatus
  | [], _ => none
  | (k', v) :: rest, k => if k' = k then some v else equipGet rest k

/-- `Map.set` on the equipment map: update in place if the key exists,
else append (JS `Map` insertion order). -/
def equipSet : EquipMap → Str → EquipmentStatus → EquipMap
  | [], k, v => [(k, v)]
  | (k', v') :: rest, k, v =>
      if k' = k then (k, v) :: rest else (k', v') :: equipSet rest k v

/-- `RealtimeState` from `useRealtime.ts`.  `lastMessageAt` holds the model
time (`new Date()` at handling time). -/
structure RealtimeState where
  connectionStatus : ConnectionStatus
  connectionId : Option Str
  lastYieldUpdate : Option YieldUpdate
  equipmentStatuses : EquipMap
  recentWIPMovements : List WIPMovement
  activeAlerts : List AlertData
  metrics : Option FabMetrics
  messageCount : Nat
  lastMessageAt : Option Nat
deriving DecidableEq

/-- The `useState` initial value. -/
def initialState : RealtimeState :=
  ⟨.disconnected, none, none, [], [], [], none, 0, none⟩

/-- `handleMessage`: bump `messageCount`, stamp `lastMessageAt`, then
dispatch on `stream_type`.  `heartbeat` stores `connection_id` only when
truthy; `wip_movement` prepends and `slice(0, 50)`; `alert` prepends and
`slice(0, 100)`; an unknown `stream_type` falls through the `switch`. -/
def handleMessage (prev : RealtimeState) (now : Nat) (msg : StreamMessage) :
    RealtimeState :=
  let st := { prev with
    messageCount := prev.messageCount + 1,
    lastMessageAt := some now }
  match msg.payload with
  | .heartbeat cid =>
      match cid with
      | some c => if c = [] then st else { st with connectionId := some c }
      | none => st
  | .yield_update y => { st with lastYieldUpdate := some y }
  | .equipment_status e =>
      { st with equipmentStatuses := equipSet prev.equipmentStatuses e.equipment_id e }
  | .wip_movement w =>
      { st with recentWIPMovements := (w :: prev.recentWIPMovements).take 50 }
  | .alert a =>
      { st with activeAlerts := (a :: prev.activeAlerts).take 100 }
  | .metrics m => { st with metrics := some m }
  | .unknown _ => st

/-- Fold a message sequence through `handleMessage` (inbound messages are
processed strictly in arrival order). -/
def handleAll (s : RealtimeState) (now : Nat) (msgs : List StreamMessage) :
    RealtimeState :=
  msgs.foldl (fun acc m => handleMessage acc now m) s

/-- The `ws.onclose` handler's first state update:
`{ ...prev, connectionStatus: 'disconnected', connectionId: null }`. -/
def oncloseUpdate (prev : RealtimeState) : RealtimeState :=
  { prev with connectionStatus := .disconnected, connectionId := none }

/-- The `ws.onclose` handler's second state update, when a retry is
scheduled: `{ ...prev, connectionStatus: 'reconnecting' }`. -/
def reconnectingUpdate (prev : RealtimeState) : RealtimeState :=
  { prev with connectionStatus := .reconnecting }

/-- `clearAlerts()`: `{ ...prev, activeAlerts: [] }`. -/
def clearAlerts (prev : RealtimeState) : RealtimeState :=
  { prev with activeAlerts := [] }

/-- `dismissAlert(alertId)`: keep the alerts whose id differs. -/
def dismissAlert (prev : RealtimeState) (alertId : Str) : RealtimeState :=
  { prev with activeAlerts := prev.activeAlerts.filter (fun a => a.alert_id ≠ alertId) }

/-- The `wip_movement` payload of a message, when it is one. -/
def wipPayload : StreamPayload → Option WIPMovement
  | .wip_movement w => some w
  | _ => none

instance : Inhabited EquipmentStatus := ⟨⟨[], [], [], 0, 0, 0, 0, []⟩⟩

instance : Inhabited WIPMovement := ⟨⟨[], 0, [], [], [], [], [], 0, []⟩⟩

instance : Inhabited AlertData := ⟨⟨[], [], [], [], [], false, false⟩⟩

end Realtime

namespace Manager

/-- Lifecycle of one `WebSocket` object created by `connect()`. -/
inductive SockState
  | connecting
  | opened
  | closing
  | closed
deriving DecidableEq

/-- The hook options the reconnect logic reads. -/
structure Config where
  maxAttempts : Nat
deriving DecidableEq

/-- Connection-manager state: the sockets ever created (index = identity;
handlers are attached per socket and stay live however `wsRef` moves on),
the three refs (`wsRef`, `reconnectAttemptsRef`, `reconnectTimeoutRef`),
the set of scheduled-but-not-yet-fired-or-cleared timers, a fresh-timer
counter, the `connectionStatus` field of the React state, and a count of
`connect()` invocations made by the retry-timer callback. -/
structure MState where
  sockets : List SockState
  wsRef : Option Nat
  attempts : Nat
  timeoutRef : Option Nat
  pending : List Nat
  nextTimer : Nat
  status : Realtime.ConnectionStatus
  autoConnects : Nat
deriving DecidableEq

/-- Before any call: no sockets, no timers, `disconnected`. -/
def initState : MState :=
  ⟨[], none, 0, none, [], 0, .disconnected, 0⟩

/-- `wsRef.current?.readyState === WebSocket.OPEN`. -/
def refOpen (s : MState) : Bool :=
  match s.wsRef with
  | some i => s.sockets.getD i .closed = .opened
  | none => false

/-- `connect()`: a no-op when the referenced socket is OPEN; otherwise set
status `connecting`, create a new socket and point `wsRef` at it. -/
def connectFn (s : MState) : MState :=
  if refOpen s then s
  else
    { s with
      status := .connecting,
      sockets := s.sockets ++ [SockState.connecting],
      wsRef := some s.sockets.length }

/-- `ws.onopen` for socket `i` (only a connecting socket can open):
status `connected`, `reconnectAttemptsRef.current = 0`. -/
def openEvent (s : MState) (i : Nat) : MState :=
  if s.sockets.getD i .closed = .connecting then
    { s with
      sockets := s.sockets.set i .opened,
      status := .connected,
      attempts := 0 }
  else s

/-- `ws.onclose` for socket `i` (fires when a non-closed socket closes):
status `disconnected`; then, if `reconnectAttemptsRef.current <
maxReconnectAttempts`, status `reconnecting` and
`reconnectTimeoutRef.current = setTimeout(...)` — the new timer is
recorded in the ref *without* clearing a previously scheduled one. -/
def closeEvent (cfg : Config) (s : MState) (i : Nat) : MState :=
  if s.sockets.getD i .closed = .closed then s
  else
    let s1 := { s with
      sockets := s.sockets.set i .closed,
      status := Realtime.ConnectionStatus.disconnected }
    if s1.attempts < cfg.maxAttempts then
      { s1 with
        status := .reconnecting,
        pending := s1.nextTimer :: s1.pending,
        timeoutRef := some s1.nextTimer,
        nextTimer := s1.nextTimer + 1 }
    else s1

/-- A scheduled timer elapses: `reconnectAttemptsRef.current++`, then
`connect()` (an automatic connect call). -/
def timerFire (s : MState) (t : Nat) : MState :=
  if s.pending.contains t then
    connectFn { s with
      pending := s.pending.erase t,
      attempts := s.attempts + 1,
      autoConnects := s.autoConnects + 1 }
  else s

/-- `disconnect()`: `clearTimeout(reconnectTimeoutRef.current)` (clears the
timer the ref names, if still pending), `reconnectAttemptsRef.current =
maxReconnectAttempts`, `wsRef.current?.close()` (a non-closed referenced
socket begins closing), `wsRef.current = null`. -/
def disconnectFn (cfg : Config) (s : MState) : MState :=
  let s1 :=
    match s.timeoutRef with
    | some t => { s with pending := s.pending.erase t }
    | none => s
  let s2 := { s1 with attempts := cfg.maxAttempts }
  let s3 :=
    match s2.wsRef with
    | some i =>
        if s2.sockets.getD i SockState.closed = SockState.closed then s2
        else { s2 with sockets := s2.sockets.set i SockState.closing }
    | none => s2
  { s3 with wsRef := none }

/-- The events that can hit the manager: the two explicit calls, a socket
completing its handshake, a socket closing, a retry timer elapsing. -/
inductive Event
  | connectCall
  | disconnectCall
  | openEvt (i : Nat)
  | closeEvt (i : Nat)
  | fireEvt (t : Nat)
deriving DecidableEq

/-- One event.  Events whose guard does not hold (opening a socket that is
not connecting, closing a closed socket, firing a timer that is not
pending) cannot occur and leave the state unchanged. -/
def step (cfg : Config) (s : MState) : Event → MState
  | .connectCall => connectFn s
  | .disconnectCall => disconnectFn cfg s
  | .openEvt i => openEvent s i
  | .closeEvt i => closeEvent cfg s i
  | .fireEvt t => timerFire s t

/-- Run an event trace from a state. -/
def runFrom (cfg : Config) (s : MState) (es : List Event) : MState :=
  es.foldl (step cfg) s

/-- Run an event trace from the initial state. -/
def run (cfg : Config) (es : List Event) : MState :=
  runFrom cfg initState es

/-- Whether an event's guard holds in a state (the event can really occur
there). -/
def validEvent (s : MState) : Event → Bool
  | .connectCall => true
  | .disconnectCall => true
  | .openEvt i => s.sockets.getD i .closed = .connecting
  | .closeEvt i => ¬ s.sockets.getD i .closed = .closed
  | .fireEvt t => s.pending.contains t

/-- Every event of the trace occurs in a state where its guard holds. -/
def validTrace (cfg : Config) : MState → List Event → Bool
  | _, [] => true
  | s, e :: es => validEvent s e && validTrace cfg (step cfg s e) es

/-- Number of sockets in a list that are not fully closed. -/
def liveList : List SockState → Nat
  | [] => 0
  | x :: rest => (if x = SockState.closed then 0 else 1) + liveList rest

/-- Number of sockets that are not fully closed. -/
def liveCount (s : MState) : Nat := liveList s.sockets

/-- No pending retry timer and every socket fully closed. -/
def quiescent (s : MState) : Bool :=
  s.pending.isEmpty && liveCount s = 0

/-- The single-connection discipline: `connect()` is only called
explicitly when no socket is live and no retry timer is pending. -/
def disciplined (cfg : Config) : MState → List Event → Bool
  | _, [] => true
  | s, e :: es =>
      (validEvent s e && (match e with | .connectCall => quiescent s | _ => true))
        && disciplined cfg (step cfg s e) es

/-- Invariant of disciplined runs: at most one live socket or pending
timer in total; any pending timer is the one `reconnectTimeoutRef` names
and was scheduled while `attempts` was below the maximum; `attempts`
never exceeds the maximum. -/
abbrev Inv (cfg : Config) (s : MState) : Prop :=
  liveCount s + s.pending.length ≤ 1 ∧
  (∀ t ∈ s.pending, s.timeoutRef = some t) ∧
  (∀ t ∈ s.pending, s.attempts < cfg.maxAttempts) ∧
  s.attempts ≤ cfg.maxAttempts

/-- The terminal configuration of the reconnect policy: `disconnected`,
counter at the maximum, nothing pending, every socket closed. -/
abbrev Stabilized (cfg : Config) (s : MState) : Prop :=
  s.status = .disconnected ∧
  s.attempts = cfg.maxAttempts ∧
  s.pending = [] ∧
  liveCount s = 0

end Manager

/-! ## Helper lemmas -/

namespace Insight

theorem cacheGet_cacheSet_self (c : Cache) (k v : Str) :
    cacheGet (cacheSet c k v) k = some v := by
  induction c with
  | nil => simp [cacheSet, cacheGet]
  | cons p rest ih =>
      obtain ⟨k', v'⟩ := p
      by_cases h : k' = k
      · subst h; simp [cacheSet, cacheGet]
      · simp [cacheSet, cacheGet, h, ih]

theorem generate_miss_ok (parse : Str → Option Str) (cache : Cache)
    (q r : Str) (chunks : List Str)
    (h : cacheGet cache (hashKey q r) = none) :
    generate parse cache q r (.ok chunks)
      = ⟨cacheSet cache (hashKey q r) (processStream parse chunks []),
         ⟨processStream parse chunks [], false, none⟩, 1⟩ := by
  simp [generate, h, finishNetwork]

theorem lineEffect_done (parse : Str → Option Str) :
    lineEffect parse (str "data: [DONE]") = .stop := rfl

end Insight

/-! ## Claims about the streaming request client -/

namespace Insight

/-- C1 (counterexample): a cache key can already hold a cached text — the
empty string, written after a stream that produced no chunks — and yet
`generate` still issues a network request: `if (cached)` is false for
`''`, so the cached text is not returned and the request is not
short-circuited.  Hence two `generate` calls with identical key parts can
issue two network requests in total. -/
theorem generate_cached_empty_still_requests :
    cacheGet [(str "q:1", [])] (hashKey (str "q") (str "1")) = some [] ∧
    (generate parseChunkJson [(str "q:1", [])] (str "q") (str "1")
        (FetchOutcome.ok [])).requests = 1 ∧
    (generate parseChunkJson
        (generate parseChunkJson [] (str "q") (str "1") (FetchOutcome.ok [])).cache
        (str "q") (str "1") (FetchOutcome.ok [])).requests = 1 := by
  decide

/-- C1 (amended): if the computed key holds a *nonempty* cached text, then
`generate` returns it immediately with no network request; and two
`generate` calls with identical key parts, of which the first accumulates
a nonempty text, issue exactly one network request in total, the second
call publishing exactly the text the first call cached. -/
theorem generate_cached_nonempty_no_request :
    (∀ (parse : Str → Option Str) (cache : Cache) (q r c : Str)
        (outcome : FetchOutcome),
        cacheGet cache (hashKey q r) = some c → c ≠ [] →
        generate parse cache q r outcome = ⟨cache, ⟨c, false, none⟩, 0⟩) ∧
    (∀ (parse : Str → Option Str) (cache : Cache) (q r : Str)
        (chunks : List Str) (outcome2 : FetchOutcome),
        cacheGet cache (hashKey q r) = none →
        processStream parse chunks [] ≠ [] →
        (generate parse cache q r (.ok chunks)).requests = 1 ∧
        cacheGet (generate parse cache q r (.ok chunks)).cache (hashKey q r)
          = some (processStream parse chunks []) ∧
        (generate parse (generate parse cache q r (.ok chunks)).cache
            q r outcome2).requests = 0 ∧
        (generate parse (generate parse cache q r (.ok chunks)).cache
            q r outcome2).state.text = processStream parse chunks []) := by
  constructor
  · intro parse cache q r c outcome h hc
    simp [generate, h, hc]
  · intro parse cache q r chunks outcome2 h ht
    rw [generate_miss_ok parse cache q r chunks h]
    have h2 : cacheGet
        (cacheSet cache (hashKey q r) (processStream parse chunks []))
        (hashKey q r) = some (processStream parse chunks []) :=
      cacheGet_cacheSet_self cache (hashKey q r) (processStream parse chunks [])
    refine ⟨rfl, h2, ?_, ?_⟩ <;> simp [generate, h2, ht]

/-- Witness for the amended C1 at concrete inputs. -/
theorem generate_cached_nonempty_no_request_witness :
    (cacheGet [(str "q:1", str "T")] (hashKey (str "q") (str "1")) = some (str "T") ∧
      generate parseChunkJson [(str "q:1", str "T")] (str "q") (str "1")
          FetchOutcome.aborted
        = ⟨[(str "q:1", str "T")], ⟨str "T", false, none⟩, 0⟩) ∧
    (cacheGet [] (hashKey (str "q") (str "1")) = none ∧
      processStream parseChunkJson [str "data: \x7b\"chunk\":\"T\"\x7d"] [] ≠ [] ∧
      (generate parseChunkJson [] (str "q") (str "1")
          (.ok [str "data: \x7b\"chunk\":\"T\"\x7d"])).requests = 1 ∧
      (generate parseChunkJson
          (generate parseChunkJson [] (str "q") (str "1")
            (.ok [str "data: \x7b\"chunk\":\"T\"\x7d"])).cache
          (str "q") (str "1") FetchOutcome.aborted).requests = 0) := by
  refine ⟨⟨by decide, generate_cached_nonempty_no_request.1 parseChunkJson
      [(str "q:1", str "T")] (str "q") (str "1") (str "T")
      FetchOutcome.aborted (by decide) (by decide)⟩,
    ⟨by decide, by decide, ?_, ?_⟩⟩
  · exact (generate_cached_nonempty_no_request.2 parseChunkJson []
      (str "q") (str "1") [str "data: \x7b\"chunk\":\"T\"\x7d"]
      FetchOutcome.aborted (by decide) (by decide)).1
  · exact (generate_cached_nonempty_no_request.2 parseChunkJson []
      (str "q") (str "1") [str "data: \x7b\"chunk\":\"T\"\x7d"]
      FetchOutcome.aborted (by decide) (by decide)).2.2.1

end Insight


namespace Insight

theorem generate_hit (parse : Str → Option Str) (cache : Cache)
    (q r c : Str) (outcome : FetchOutcome)
    (h : cacheGet cache (hashKey q r) = some c) (hc : c ≠ []) :
    generate parse cache q r outcome = ⟨cache, ⟨c, false, none⟩, 0⟩ := by
  simp [generate, h, hc]

theorem processLines_done_independent (parse : Str → Option Str)
    (pre : List Str) :
    ∀ (post post' : List Str) (acc : Str),
    processLines parse (pre ++ str "data: [DONE]" :: post) acc
      = processLines parse (pre ++ str "data: [DONE]" :: post') acc := by
  induction pre with
  | nil =>
      intro post post' acc
      simp [processLines, lineEffect_done]
  | cons l ls ih =>
      intro post post' acc
      cases h : lineEffect parse l with
      | stop => simp [processLines, h]
      | skip => simpa [processLines, h] using ih post post' acc
      | append c => simpa [processLines, h] using ih post post' (acc ++ c)

/-- C6 (counterexample): the `[DONE]` sentinel in one chunk does not end
consumption of the stream: a payload line arriving in a *later* chunk is
still parsed and appended.  Here the first chunk is the bare sentinel and
the accumulated text nevertheless ends up `"X"`, contributed by the second
chunk. -/
theorem sentinel_does_not_end_stream :
    processStream parseChunkJson
        [str "data: [DONE]", str "data: \x7b\"chunk\":\"X\"\x7d"] []
      = str "X" ∧
    ¬ processStream parseChunkJson
        [str "data: [DONE]", str "data: \x7b\"chunk\":\"X\"\x7d"] [] = [] := by
  decide

/-- C6 (amended): the sentinel's `break` leaves only the per-chunk line
loop: lines after the sentinel *in the same chunk* never contribute (the
result does not depend on them), while the read loop goes on and lines in
later chunks are still processed. -/
theorem sentinel_breaks_only_current_chunk :
    (∀ (parse : Str → Option Str) (pre post post' : List Str) (acc : Str),
        processLines parse (pre ++ str "data: [DONE]" :: post) acc
          = processLines parse (pre ++ str "data: [DONE]" :: post') acc) ∧
    (∀ (parse : Str → Option Str) (chunk : Str) (rest : List Str) (acc : Str),
        processStream parse (chunk :: rest) acc
          = processStream parse rest (processChunk parse acc chunk)) :=
  ⟨fun parse pre post post' acc =>
      processLines_done_independent parse pre post post' acc,
    fun _ _ _ _ => rfl⟩

/-- C8: with a `generate` request in flight (the key had no truthy cache
entry, so the network path was taken), `clear()` aborts the transfer
benignly: the caller sees no error, nothing is written to the cache for
that request's key (the cache is unchanged), and the loading flag is
cleared. -/
theorem cancel_midflight_benign :
    ∀ (parse : Str → Option Str) (cache : Cache) (q r : Str),
    (cacheGet cache (hashKey q r) = none ∨
      cacheGet cache (hashKey q r) = some []) →
    cancelScenario parse cache q r = (cache, clearState) ∧
    (cancelScenario parse cache q r).1 = cache ∧
    (cancelScenario parse cache q r).2.error = none ∧
    (cancelScenario parse cache q r).2.isLoading = false := by
  intro parse cache q r _
  exact ⟨rfl, rfl, rfl, rfl⟩

/-- Witness for C8 at concrete inputs. -/
theorem cancel_midflight_benign_witness :
    (cacheGet [] (hashKey (str "a") (str "1")) = none ∨
      cacheGet [] (hashKey (str "a") (str "1")) = some []) ∧
    cancelScenario parseChunkJson [] (str "a") (str "1") = ([], clearState) ∧
    (cancelScenario parseChunkJson [] (str "a") (str "1")).2.error = none :=
  ⟨Or.inl rfl,
    (cancel_midflight_benign parseChunkJson [] (str "a") (str "1") (Or.inl rfl)).1,
    (cancel_midflight_benign parseChunkJson [] (str "a") (str "1") (Or.inl rfl)).2.2.1⟩

set_option maxRecDepth 8000 in
/-- C10 (counterexample): two distinct inputs agreeing on the first 200
characters of `queryType + ':' + serialized-results` do map to the same
key — but it is not true that for such inputs the second `generate` call
always returns the first call's cached text without a network request:
when the first call accumulated the empty text, the second call issues a
request again. -/
theorem hashKey_collision_empty_text_refetches :
    hashKey (List.replicate 200 'a') (str "1")
      = hashKey (List.replicate 200 'a') (str "2") ∧
    ¬ (str "1" = str "2") ∧
    cacheGet
      (generate parseChunkJson [] (List.replicate 200 'a') (str "1")
        (FetchOutcome.ok [])).cache
      (hashKey (List.replicate 200 'a') (str "2")) = some [] ∧
    (generate parseChunkJson
        (generate parseChunkJson [] (List.replicate 200 'a') (str "1")
          (FetchOutcome.ok [])).cache
        (List.replicate 200 'a') (str "2") (FetchOutcome.ok [])).requests
      = 1 := by
  decide

set_option maxRecDepth 8000 in
/-- C10 (amended): the cache key is the first 200 characters of
`queryType + ':' + JSON-serialized results`, so distinct inputs agreeing
on that prefix collide; for such colliding inputs, whenever the first
call cached a *nonempty* text, the second call — with the *other* input —
returns that very text with no network request. -/
theorem hashKey_collision_second_call_cached :
    (hashKey (List.replicate 200 'a') (str "1")
        = hashKey (List.replicate 200 'a') (str "2") ∧
      ¬ (str "1" = str "2")) ∧
    (∀ (parse : Str → Option Str) (chunks : List Str)
        (outcome2 : FetchOutcome),
        processStream parse chunks [] ≠ [] →
        (generate parse
            (generate parse [] (List.replicate 200 'a') (str "1")
              (.ok chunks)).cache
            (List.replicate 200 'a') (str "2") outcome2).requests = 0 ∧
        (generate parse
            (generate parse [] (List.replicate 200 'a') (str "1")
              (.ok chunks)).cache
            (List.replicate 200 'a') (str "2") outcome2).state.text
          = processStream parse chunks []) := by
  have hkey : hashKey (List.replicate 200 'a') (str "1")
      = hashKey (List.replicate 200 'a') (str "2") := by decide
  refine ⟨⟨hkey, by decide⟩, ?_⟩
  intro parse chunks outcome2 ht
  rw [generate_miss_ok parse [] (List.replicate 200 'a') (str "1") chunks rfl]
  have h2 : cacheGet
      (cacheSet [] (hashKey (List.replicate 200 'a') (str "1"))
        (processStream parse chunks []))
      (hashKey (List.replicate 200 'a') (str "2"))
      = some (processStream parse chunks []) := by
    rw [← hkey]
    exact cacheGet_cacheSet_self [] _ _
  rw [generate_hit parse _ _ _ _ outcome2 h2 ht]
  exact ⟨rfl, rfl⟩

set_option maxRecDepth 8000 in
/-- Witness for the amended C10 at concrete inputs. -/
theorem hashKey_collision_second_call_cached_witness :
    processStream parseChunkJson [str "data: \x7b\"chunk\":\"T\"\x7d"] [] ≠ [] ∧
    (generate parseChunkJson
        (generate parseChunkJson [] (List.replicate 200 'a') (str "1")
          (.ok [str "data: \x7b\"chunk\":\"T\"\x7d"])).cache
        (List.replicate 200 'a') (str "2") FetchOutcome.aborted).requests = 0 :=
  ⟨by decide,
    (hashKey_collision_second_call_cached.2 parseChunkJson
      [str "data: \x7b\"chunk\":\"T\"\x7d"] FetchOutcome.aborted (by decide)).1⟩

end Insight

/-! ## Claims about the message router / state store -/

namespace Realtime

/-- Keys of the equipment map, in insertion order. -/
def equipKeys (m : EquipMap) : List Str := m.map Prod.fst

theorem equipGet_set_self (m : EquipMap) (k : Str) (v : EquipmentStatus) :
    equipGet (equipSet m k v) k = some v := by
  induction m with
  | nil => simp [equipSet, equipGet]
  | cons p rest ih =>
      obtain ⟨k', v'⟩ := p
      by_cases h : k' = k
      · subst h; simp [equipSet, equipGet]
      · simp [equipSet, equipGet, h, ih]

theorem equipKeys_set (m : EquipMap) (k : Str) (v : EquipmentStatus) :
    equipKeys (equipSet m k v)
      = if k ∈ equipKeys m then equipKeys m else equipKeys m ++ [k] := by
  induction m with
  | nil =>
      simp only [equipKeys, equipSet, List.map_nil, List.map_cons]
      rw [if_neg (List.not_mem_nil k)]
      rfl
  | cons p rest ih =>
      obtain ⟨k', v'⟩ := p
      simp only [equipKeys, List.map_cons] at ih ⊢
      by_cases h : k' = k
      · subst h
        rw [show equipSet ((k', v') :: rest) k' v = (k', v) :: rest from by
          simp [equipSet]]
        rw [if_pos (List.mem_cons_self _ _)]
        simp only [List.map_cons]
      · rw [show equipSet ((k', v') :: rest) k v = (k', v') :: equipSet rest k v from by
          simp [equipSet, h]]
        simp only [List.map_cons, ih]
        by_cases hmem : k ∈ List.map Prod.fst rest
        · rw [if_pos hmem, if_pos (List.mem_cons_of_mem _ hmem)]
        · have hcond : ¬ k ∈ k' :: List.map Prod.fst rest := by
            intro hc
            rcases List.mem_cons.mp hc with hc | hc
            · exact h hc.symm
            · exact hmem hc
          rw [if_neg hmem, if_neg hcond, List.cons_append]

theorem mem_equipKeys_set (m : EquipMap) (k : Str) (v : EquipmentStatus) :
    k ∈ equipKeys (equipSet m k v) := by
  rw [equipKeys_set]
  by_cases h : k ∈ equipKeys m
  · rw [if_pos h]; exact h
  · simp [h]

theorem equipKeys_set_nodup (m : EquipMap) (k : Str) (v : EquipmentStatus)
    (hnd : (equipKeys m).Nodup) : (equipKeys (equipSet m k v)).Nodup := by
  rw [equipKeys_set]
  by_cases h : k ∈ equipKeys m
  · simpa [h] using hnd
  · simp [h, List.nodup_append, hnd]

theorem length_filterMap_wip (msgs : List StreamMessage)
    (h : ∀ m ∈ msgs, (wipPayload m.payload).isSome) :
    (msgs.filterMap (fun m => wipPayload m.payload)).length = msgs.length := by
  induction msgs with
  | nil => rfl
  | cons m rest ih =>
      have hm := h m (List.mem_cons_self m rest)
      obtain ⟨w, hw⟩ := Option.isSome_iff_exists.mp hm
      simp only [List.filterMap_cons, hw, List.length_cons]
      rw [ih (fun m' hm' => h m' (List.mem_cons_of_mem _ hm'))]

theorem take_append_take {α : Type} (X Y : List α) (n : Nat) :
    (X ++ Y.take n).take n = (X ++ Y).take n := by
  rw [List.take_append_eq_append_take, List.take_append_eq_append_take,
    List.take_take, Nat.min_eq_left (Nat.sub_le _ _)]

theorem handleAll_wip (now : Nat) :
    ∀ (msgs : List StreamMessage) (s : RealtimeState),
    s.recentWIPMovements.length ≤ 50 →
    (∀ m ∈ msgs, (wipPayload m.payload).isSome) →
    (handleAll s now msgs).recentWIPMovements
      = ((msgs.filterMap (fun m => wipPayload m.payload)).reverse
          ++ s.recentWIPMovements).take 50 := by
  intro msgs
  induction msgs with
  | nil =>
      intro s hs _
      simp only [handleAll, List.foldl_nil, List.filterMap_nil, List.reverse_nil,
        List.nil_append]
      exact (List.take_of_length_le hs).symm
  | cons m rest ih =>
      intro s hs hall
      have hsome := hall m (List.mem_cons_self m rest)
      cases hp : m.payload <;> rw [hp] at hsome <;> simp [wipPayload] at hsome
      rename_i w
      have hstep : handleAll s now (m :: rest)
          = handleAll (handleMessage s now m) now rest := rfl
      have hmsg : handleMessage s now m
          = { s with
              messageCount := s.messageCount + 1,
              lastMessageAt := some now,
              recentWIPMovements := (w :: s.recentWIPMovements).take 50 } := by
        simp [handleMessage, hp]
      rw [hstep, hmsg,
        ih _ (List.length_take_le 50 (w :: s.recentWIPMovements))
          (fun m' hm' => hall m' (List.mem_cons_of_mem _ hm'))]
      simp only [take_append_take, List.filterMap_cons, hp, wipPayload,
        List.reverse_cons, List.append_assoc, List.singleton_append]

/-- C3: processing any all-`wip_movement` message sequence from the empty
state leaves exactly the most recent `min(N, 50)` movements, newest first
(the reverse of arrival order, truncated at capacity 50, the oldest
dropped from the tail). -/
theorem wip_list_bounded_newest_first :
    ∀ (msgs : List StreamMessage) (now : Nat),
    (∀ m ∈ msgs, (wipPayload m.payload).isSome) →
    (handleAll initialState now msgs).recentWIPMovements
      = ((msgs.filterMap (fun m => wipPayload m.payload)).reverse).take 50 ∧
    (handleAll initialState now msgs).recentWIPMovements.length
      = min msgs.length 50 := by
  intro msgs now hall
  have h := handleAll_wip now msgs initialState (by simp [initialState]) hall
  constructor
  · simpa [initialState] using h
  · rw [h]
    simp [initialState, List.length_take, length_filterMap_wip msgs hall,
      Nat.min_comm]

/-- Witness for C3 at a concrete two-message sequence. -/
theorem wip_list_bounded_newest_first_witness :
    (∀ m ∈ ([⟨str "m1", .wip_movement ⟨str "L1", 1, [], [], [], [], [], 0, []⟩, [], 0⟩,
             ⟨str "m2", .wip_movement ⟨str "L2", 2, [], [], [], [], [], 0, []⟩, [], 0⟩] :
        List StreamMessage), (wipPayload m.payload).isSome) ∧
    (handleAll initialState 7
        [⟨str "m1", .wip_movement ⟨str "L1", 1, [], [], [], [], [], 0, []⟩, [], 0⟩,
         ⟨str "m2", .wip_movement ⟨str "L2", 2, [], [], [], [], [], 0, []⟩, [], 0⟩]).recentWIPMovements
      = [⟨str "L2", 2, [], [], [], [], [], 0, []⟩, ⟨str "L1", 1, [], [], [], [], [], 0, []⟩] ∧
    (handleAll initialState 7
        [⟨str "m1", .wip_movement ⟨str "L1", 1, [], [], [], [], [], 0, []⟩, [], 0⟩,
         ⟨str "m2", .wip_movement ⟨str "L2", 2, [], [], [], [], [], 0, []⟩, [], 0⟩]).recentWIPMovements.length
      = min 2 50 := by
  refine ⟨by decide, ?_, ?_⟩
  · have h := (wip_list_bounded_newest_first
      [⟨str "m1", .wip_movement ⟨str "L1", 1, [], [], [], [], [], 0, []⟩, [], 0⟩,
       ⟨str "m2", .wip_movement ⟨str "L2", 2, [], [], [], [], [], 0, []⟩, [], 0⟩]
      7 (by decide)).1
    rw [h]; decide
  · have h := (wip_list_bounded_newest_first
      [⟨str "m1", .wip_movement ⟨str "L1", 1, [], [], [], [], [], 0, []⟩, [], 0⟩,
       ⟨str "m2", .wip_movement ⟨str "L2", 2, [], [], [], [], [], 0, []⟩, [], 0⟩]
      7 (by decide)).2
    rw [h]; decide

end Realtime

namespace Realtime

/-- C4 (counterexample): the handler stores an `equipment_status` record
verbatim, so `previous_status` is whatever the later message carried, not
the status of the superseded record: here the first record's status is
`RUNNING` but the surviving record's `previous_status` is `DOWN`. -/
theorem equipment_previous_status_not_derived :
    (equipGet
        (handleMessage
          (handleMessage initialState 0
            ⟨str "m1", .equipment_status
              ⟨str "EQ1", str "RUNNING", str "IDLE", 0, 0, 0, 0, []⟩, [], 0⟩)
          1
          ⟨str "m2", .equipment_status
            ⟨str "EQ1", str "IDLE", str "DOWN", 0, 0, 0, 0, []⟩, [], 0⟩).equipmentStatuses
        (str "EQ1")).map EquipmentStatus.previous_status = some (str "DOWN") ∧
    ¬ (equipGet
        (handleMessage
          (handleMessage initialState 0
            ⟨str "m1", .equipment_status
              ⟨str "EQ1", str "RUNNING", str "IDLE", 0, 0, 0, 0, []⟩, [], 0⟩)
          1
          ⟨str "m2", .equipment_status
            ⟨str "EQ1", str "IDLE", str "DOWN", 0, 0, 0, 0, []⟩, [], 0⟩).equipmentStatuses
        (str "EQ1")).map EquipmentStatus.previous_status = some (str "RUNNING") := by
  decide

theorem filter_keys_nil (m : EquipMap) (k : Str)
    (h : ¬ k ∈ equipKeys m) : m.filter (fun p => p.1 = k) = [] := by
  induction m with
  | nil => rfl
  | cons p rest ih =>
      obtain ⟨k', v'⟩ := p
      simp only [equipKeys, List.map_cons, List.mem_cons] at h
      have h1 : ¬ (k' = k) := fun he => h (Or.inl he.symm)
      have h2 : ¬ k ∈ equipKeys rest := fun hm => h (Or.inr hm)
      simp [List.filter_cons, h1, ih h2]

theorem filter_equipSet_self (m : EquipMap) (k : Str) (v : EquipmentStatus)
    (hnd : (equipKeys m).Nodup) :
    (equipSet m k v).filter (fun p => p.1 = k) = [(k, v)] := by
  induction m with
  | nil => simp [equipSet]
  | cons p rest ih =>
      obtain ⟨k', v'⟩ := p
      simp only [equipKeys, List.map_cons, List.nodup_cons] at hnd
      by_cases h : k' = k
      · subst h
        rw [show equipSet ((k', v') :: rest) k' v = (k', v) :: rest from by
          simp [equipSet]]
        simp [List.filter_cons, filter_keys_nil rest k' hnd.1]
      · rw [show equipSet ((k', v') :: rest) k v = (k', v') :: equipSet rest k v from by
          simp [equipSet, h]]
        simp [List.filter_cons, h, ih hnd.2]

/-- C4 (amended): after two `equipment_status` messages with the same
equipment id, the map holds exactly one record under that id, and that
record is the *later* message's payload in its entirety — in particular its
`previous_status` is the later message's `previous_status` field taken
verbatim, not a value derived from the superseded record. -/
theorem equipment_upsert_latest_record :
    ∀ (st : RealtimeState) (now1 now2 : Nat) (m1 m2 : StreamMessage)
      (e1 e2 : EquipmentStatus),
    m1.payload = StreamPayload.equipment_status e1 →
    m2.payload = StreamPayload.equipment_status e2 →
    e2.equipment_id = e1.equipment_id →
    (equipKeys st.equipmentStatuses).Nodup →
    equipGet (handleMessage (handleMessage st now1 m1) now2 m2).equipmentStatuses
        e1.equipment_id = some e2 ∧
    ((handleMessage (handleMessage st now1 m1) now2 m2).equipmentStatuses).filter
        (fun p => p.1 = e1.equipment_id) = [(e1.equipment_id, e2)] ∧
    (equipGet (handleMessage (handleMessage st now1 m1) now2 m2).equipmentStatuses
        e1.equipment_id).map EquipmentStatus.previous_status
      = some e2.previous_status := by
  intro st now1 now2 m1 m2 e1 e2 h1 h2 hid hnd
  have hmap : (handleMessage (handleMessage st now1 m1) now2 m2).equipmentStatuses
      = equipSet (equipSet st.equipmentStatuses e1.equipment_id e1)
          e2.equipment_id e2 := by
    simp [handleMessage, h1, h2]
  rw [hmap, ← hid]
  refine ⟨equipGet_set_self _ _ _, ?_, by rw [equipGet_set_self]; rfl⟩
  exact filter_equipSet_self _ _ _ (equipKeys_set_nodup _ _ _ hnd)

/-- Witness for the amended C4 at two concrete messages. -/
theorem equipment_upsert_latest_record_witness :
    (equipKeys initialState.equipmentStatuses).Nodup ∧
    equipGet
        (handleMessage
          (handleMessage initialState 0
            ⟨str "m1", .equipment_status
              ⟨str "EQ1", str "RUNNING", str "IDLE", 0, 0, 0, 0, []⟩, [], 0⟩)
          1
          ⟨str "m2", .equipment_status
            ⟨str "EQ1", str "IDLE", str "DOWN", 0, 0, 0, 0, []⟩, [], 0⟩).equipmentStatuses
        (str "EQ1")
      = some ⟨str "EQ1", str "IDLE", str "DOWN", 0, 0, 0, 0, []⟩ ∧
    ((handleMessage
          (handleMessage initialState 0
            ⟨str "m1", .equipment_status
              ⟨str "EQ1", str "RUNNING", str "IDLE", 0, 0, 0, 0, []⟩, [], 0⟩)
          1
          ⟨str "m2", .equipment_status
            ⟨str "EQ1", str "IDLE", str "DOWN", 0, 0, 0, 0, []⟩, [], 0⟩).equipmentStatuses).filter
        (fun p => p.1 = str "EQ1")
      = [(str "EQ1", ⟨str "EQ1", str "IDLE", str "DOWN", 0, 0, 0, 0, []⟩)] :=
  ⟨by decide,
    (equipment_upsert_latest_record initialState 0 1
      ⟨str "m1", .equipment_status
        ⟨str "EQ1", str "RUNNING", str "IDLE", 0, 0, 0, 0, []⟩, [], 0⟩
      ⟨str "m2", .equipment_status
        ⟨str "EQ1", str "IDLE", str "DOWN", 0, 0, 0, 0, []⟩, [], 0⟩
      ⟨str "EQ1", str "RUNNING", str "IDLE", 0, 0, 0, 0, []⟩
      ⟨str "EQ1", str "IDLE", str "DOWN", 0, 0, 0, 0, []⟩
      rfl rfl rfl (by decide)).1,
    (equipment_upsert_latest_record initialState 0 1
      ⟨str "m1", .equipment_status
        ⟨str "EQ1", str "RUNNING", str "IDLE", 0, 0, 0, 0, []⟩, [], 0⟩
      ⟨str "m2", .equipment_status
        ⟨str "EQ1", str "IDLE", str "DOWN", 0, 0, 0, 0, []⟩, [], 0⟩
      ⟨str "EQ1", str "RUNNING", str "IDLE", 0, 0, 0, 0, []⟩
      ⟨str "EQ1", str "IDLE", str "DOWN", 0, 0, 0, 0, []⟩
      rfl rfl rfl (by decide)).2.1⟩

/-- C5: every successfully parsed message — whatever its `stream_type`,
known or not — increments the global message counter by exactly one and
stamps `lastMessageAt`; a message with an unrecognized `stream_type`
changes nothing else. -/
theorem every_message_counted :
    ∀ (prev : RealtimeState) (now : Nat) (msg : StreamMessage),
    (handleMessage prev now msg).messageCount = prev.messageCount + 1 ∧
    (handleMessage prev now msg).lastMessageAt = some now ∧
    (∀ s, msg.payload = StreamPayload.unknown s →
      handleMessage prev now msg
        = { prev with
            messageCount := prev.messageCount + 1,
            lastMessageAt := some now }) := by
  intro prev now msg
  refine ⟨?_, ?_, ?_⟩
  · cases hp : msg.payload
    case heartbeat cid =>
      rcases cid with _ | c
      · simp [handleMessage, hp]
      · by_cases hc : c = [] <;> simp [handleMessage, hp, hc]
    all_goals simp [handleMessage, hp]
  · cases hp : msg.payload
    case heartbeat cid =>
      rcases cid with _ | c
      · simp [handleMessage, hp]
      · by_cases hc : c = [] <;> simp [handleMessage, hp, hc]
    all_goals simp [handleMessage, hp]
  · intro s hs
    simp [handleMessage, hs]

/-- Witness for C5 at a concrete unknown-type message. -/
theorem every_message_counted_witness :
    (handleMessage initialState 5
        ⟨str "m9", .unknown (str "future_type"), [], 0⟩).messageCount = 1 ∧
    (handleMessage initialState 5
        ⟨str "m9", .unknown (str "future_type"), [], 0⟩).lastMessageAt = some 5 ∧
    handleMessage initialState 5 ⟨str "m9", .unknown (str "future_type"), [], 0⟩
      = { initialState with messageCount := 1, lastMessageAt := some 5 } :=
  ⟨(every_message_counted initialState 5
      ⟨str "m9", .unknown (str "future_type"), [], 0⟩).1,
    (every_message_counted initialState 5
      ⟨str "m9", .unknown (str "future_type"), [], 0⟩).2.1,
    (every_message_counted initialState 5
      ⟨str "m9", .unknown (str "future_type"), [], 0⟩).2.2 (str "future_type") rfl⟩

/-- C9 (counterexample): the close handler does *not* leave
`connection_id` unchanged — it resets it to null. -/
theorem onclose_clears_connection_id :
    (oncloseUpdate { initialState with connectionId := some (str "c1") }).connectionId
      = none ∧
    ¬ (oncloseUpdate { initialState with connectionId := some (str "c1") }).connectionId
      = ({ initialState with connectionId := some (str "c1") } : RealtimeState).connectionId := by
  decide

/-- C9 (amended): the close handler (and the subsequent `reconnecting`
update) leaves every stored data field — yield snapshot, equipment map,
WIP list, alert list, metrics, message counter, last-message timestamp —
unchanged; it resets only `connectionStatus` and `connection_id` (the
latter to null).  Stored data is removed only by the explicit caller
actions `clearAlerts` and `dismissAlert`, each of which touches only the
alert list. -/
theorem close_handler_preserves_data :
    ∀ (prev : RealtimeState) (alertId : Str),
    (oncloseUpdate prev).lastYieldUpdate = prev.lastYieldUpdate ∧
    (oncloseUpdate prev).equipmentStatuses = prev.equipmentStatuses ∧
    (oncloseUpdate prev).recentWIPMovements = prev.recentWIPMovements ∧
    (oncloseUpdate prev).activeAlerts = prev.activeAlerts ∧
    (oncloseUpdate prev).metrics = prev.metrics ∧
    (oncloseUpdate prev).messageCount = prev.messageCount ∧
    (oncloseUpdate prev).lastMessageAt = prev.lastMessageAt ∧
    (oncloseUpdate prev).connectionId = none ∧
    reconnectingUpdate prev = { prev with connectionStatus := .reconnecting } ∧
    (reconnectingUpdate prev).connectionId = prev.connectionId ∧
    clearAlerts prev = { prev with activeAlerts := [] } ∧
    dismissAlert prev alertId
      = { prev with
          activeAlerts := prev.activeAlerts.filter (fun a => a.alert_id ≠ alertId) } :=
  fun _ _ => ⟨rfl, rfl, rfl, rfl, rfl, rfl, rfl, rfl, rfl, rfl, rfl, rfl⟩

end Realtime

/-! ## Claims about the connection manager -/

namespace Manager

theorem getD_of_length_le (l : List SockState) :
    ∀ i, l.length ≤ i → l.getD i SockState.closed = SockState.closed := by
  induction l with
  | nil => intro i _; rfl
  | cons x xs ih =>
      intro i h
      cases i with
      | zero => simp at h
      | succ j => exact ih j (Nat.le_of_succ_le_succ h)

theorem liveList_append_one (l : List SockState) (x : SockState) :
    liveList (l ++ [x]) = liveList l + (if x = SockState.closed then 0 else 1) := by
  induction l with
  | nil => simp [liveList]
  | cons a tl ih => simp [liveList, ih]; omega

theorem liveList_set (v : SockState) (l : List SockState) :
    ∀ i, i < l.length →
    liveList (l.set i v)
        + (if l.getD i SockState.closed = SockState.closed then 0 else 1)
      = liveList l + (if v = SockState.closed then 0 else 1) := by
  induction l with
  | nil => intro i h; simp at h
  | cons a tl ih =>
      intro i h
      cases i with
      | zero => simp [liveList, List.set, List.getD]; omega
      | succ j =>
          have hj : j < tl.length := Nat.lt_of_succ_lt_succ h
          have := ih j hj
          simp only [List.set, liveList, List.getD_cons_succ]
          omega

theorem liveList_zero_getD (l : List SockState) (hl : liveList l = 0) :
    ∀ i, l.getD i SockState.closed = SockState.closed := by
  induction l with
  | nil => intro i; rfl
  | cons a tl ih =>
      intro i
      simp only [liveList] at hl
      have ha : a = SockState.closed := by
        by_cases h : a = SockState.closed
        · exact h
        · rw [if_neg h] at hl; omega
      have htl : liveList tl = 0 := by
        rw [ha] at hl; simpa using hl
      cases i with
      | zero => simpa [List.getD] using ha
      | succ j => simpa [List.getD_cons_succ] using ih htl j

theorem getD_lt_length (l : List SockState) (i : Nat)
    (h : ¬ l.getD i SockState.closed = SockState.closed) : i < l.length := by
  by_contra hc
  exact h (getD_of_length_le l i (Nat.le_of_not_lt hc))

theorem liveList_set_closed (l : List SockState) (i : Nat)
    (h : ¬ l.getD i SockState.closed = SockState.closed) :
    liveList (l.set i SockState.closed) + 1 = liveList l := by
  have := liveList_set SockState.closed l i (getD_lt_length l i h)
  rw [if_neg h, if_pos rfl] at this
  omega

theorem liveList_set_nonclosed (l : List SockState) (i : Nat) (v : SockState)
    (h : ¬ l.getD i SockState.closed = SockState.closed)
    (hv : ¬ v = SockState.closed) :
    liveList (l.set i v) = liveList l := by
  have := liveList_set v l i (getD_lt_length l i h)
  rw [if_neg h, if_neg hv] at this
  omega

theorem pending_len_le_one (l : List Nat) (h : l.length ≤ 1) :
    l = [] ∨ ∃ t, l = [t] := by
  cases l with
  | nil => exact Or.inl rfl
  | cons x xs =>
      cases xs with
      | nil => exact Or.inr ⟨x, rfl⟩
      | cons y ys => simp at h

end Manager

namespace Manager

theorem disconnectFn_eq (cfg : Config) (s : MState) :
    disconnectFn cfg s =
      { s with
        pending := match s.timeoutRef with
          | some t => s.pending.erase t
          | none => s.pending,
        attempts := cfg.maxAttempts,
        sockets := match s.wsRef with
          | some i =>
              if s.sockets.getD i SockState.closed = SockState.closed then s.sockets
              else s.sockets.set i SockState.closing
          | none => s.sockets,
        wsRef := none } := by
  obtain ⟨so, wr, att, tr, pe, nt, stt, ac⟩ := s
  cases tr <;> cases wr <;> simp only [disconnectFn] <;>
    first
    | rfl
    | (split <;> rfl)

theorem inv_connect (cfg : Config) (s : MState) (hInv : Inv cfg s)
    (hq : quiescent s = true) : Inv cfg (connectFn s) := by
  obtain ⟨h1, h2, h3, h4⟩ := hInv
  have hq' : s.pending = [] ∧ liveCount s = 0 := by
    simpa [quiescent, List.isEmpty_iff] using hq
  by_cases href : refOpen s
  · simpa [connectFn, href] using ⟨h1, h2, h3, h4⟩
  · have hstep : connectFn s
        = { s with
            status := .connecting,
            sockets := s.sockets ++ [SockState.connecting],
            wsRef := some s.sockets.length } := by
      simp [connectFn, href]
    rw [hstep]
    refine ⟨?_, ?_, ?_, h4⟩
    · show liveList (s.sockets ++ [SockState.connecting]) + s.pending.length ≤ 1
      rw [liveList_append_one, hq'.1]
      have hz : liveList s.sockets = 0 := hq'.2
      simp [hz]
    · intro t ht
      rw [hq'.1] at ht
      exact absurd ht (List.not_mem_nil t)
    · intro t ht
      rw [hq'.1] at ht
      exact absurd ht (List.not_mem_nil t)

theorem inv_open (cfg : Config) (s : MState) (i : Nat) (hInv : Inv cfg s) :
    Inv cfg (openEvent s i) := by
  obtain ⟨h1, h2, h3, h4⟩ := hInv
  by_cases hg : s.sockets.getD i SockState.closed = SockState.connecting
  · have hset : liveList (s.sockets.set i SockState.opened) = liveList s.sockets := by
      apply liveList_set_nonclosed
      · rw [hg]; decide
      · decide
    have hstep : openEvent s i
        = { s with
            sockets := s.sockets.set i SockState.opened,
            status := .connected,
            attempts := 0 } := by
      unfold openEvent
      rw [if_pos hg]
    rw [hstep]
    refine ⟨?_, h2, ?_, Nat.zero_le _⟩
    · show liveList (s.sockets.set i SockState.opened) + s.pending.length ≤ 1
      rw [hset]
      exact h1
    · intro t ht
      exact Nat.lt_of_le_of_lt (Nat.zero_le _) (h3 t ht)
  · unfold openEvent
    rw [if_neg hg]
    exact ⟨h1, h2, h3, h4⟩

theorem inv_close (cfg : Config) (s : MState) (i : Nat) (hInv : Inv cfg s) :
    Inv cfg (closeEvent cfg s i) := by
  obtain ⟨h1, h2, h3, h4⟩ := hInv
  by_cases hg : s.sockets.getD i SockState.closed = SockState.closed
  · unfold closeEvent
    rw [if_pos hg]
    exact ⟨h1, h2, h3, h4⟩
  · have hlive : liveList (s.sockets.set i SockState.closed) + 1 = liveList s.sockets :=
      liveList_set_closed s.sockets i hg
    have h1' : liveList s.sockets + s.pending.length ≤ 1 := h1
    have hpend : s.pending = [] := by
      apply List.eq_nil_of_length_eq_zero
      omega
    have hp0 : s.pending.length = 0 := by rw [hpend]; rfl
    by_cases hlt : s.attempts < cfg.maxAttempts
    · have hstep : closeEvent cfg s i
          = { s with
              sockets := s.sockets.set i SockState.closed,
              status := .reconnecting,
              pending := s.nextTimer :: s.pending,
              timeoutRef := some s.nextTimer,
              nextTimer := s.nextTimer + 1 } := by
        unfold closeEvent
        rw [if_neg hg]
        dsimp only
        rw [if_pos hlt]
      rw [hstep]
      refine ⟨?_, ?_, ?_, h4⟩
      · show liveList (s.sockets.set i SockState.closed)
            + (s.nextTimer :: s.pending).length ≤ 1
        simp only [List.length_cons]
        omega
      · intro t ht
        rcases List.mem_cons.mp ht with h | h
        · rw [h]
        · rw [hpend] at h
          exact absurd h (List.not_mem_nil t)
      · intro t _
        exact hlt
    · have hstep : closeEvent cfg s i
          = { s with
              sockets := s.sockets.set i SockState.closed,
              status := .disconnected } := by
        unfold closeEvent
        rw [if_neg hg]
        dsimp only
        rw [if_neg hlt]
      rw [hstep]
      refine ⟨?_, ?_, ?_, h4⟩
      · show liveList (s.sockets.set i SockState.closed) + s.pending.length ≤ 1
        omega
      · intro t ht
        rw [hpend] at ht
        exact absurd ht (List.not_mem_nil t)
      · intro t ht
        rw [hpend] at ht
        exact absurd ht (List.not_mem_nil t)

end Manager

namespace Manager

theorem inv_fire (cfg : Config) (s : MState) (t : Nat) (hInv : Inv cfg s) :
    Inv cfg (timerFire s t) := by
  obtain ⟨h1, h2, h3, h4⟩ := hInv
  by_cases hc : s.pending.contains t
  · have hmem : t ∈ s.pending := by simpa using hc
    have h1' : liveList s.sockets + s.pending.length ≤ 1 := h1
    have hpl : s.pending = [t] := by
      rcases pending_len_le_one s.pending (by omega) with h | ⟨t', h⟩
      · rw [h] at hmem
        exact absurd hmem (List.not_mem_nil t)
      · rw [h] at hmem
        have : t = t' := by simpa using hmem
        rw [h, this]
    have hlz : liveList s.sockets = 0 := by
      rw [hpl] at h1'
      simp only [List.length_cons, List.length_nil] at h1'
      omega
    have herase : s.pending.erase t = [] := by
      rw [hpl]
      simp
    have hattlt : s.attempts < cfg.maxAttempts := h3 t hmem
    have hstep : timerFire s t
        = connectFn
            { s with
              pending := s.pending.erase t,
              attempts := s.attempts + 1,
              autoConnects := s.autoConnects + 1 } := by
      unfold timerFire
      rw [if_pos hc]
    rw [hstep]
    apply inv_connect
    · refine ⟨?_, ?_, ?_, hattlt⟩
      · show liveList s.sockets + (s.pending.erase t).length ≤ 1
        rw [herase, hlz]
        simp
      · intro t' ht'
        rw [herase] at ht'
        exact absurd ht' (List.not_mem_nil t')
      · intro t' ht'
        rw [herase] at ht'
        exact absurd ht' (List.not_mem_nil t')
    · show quiescent { s with
          pending := s.pending.erase t,
          attempts := s.attempts + 1,
          autoConnects := s.autoConnects + 1 } = true
      simp [quiescent, liveCount, herase, hlz]
  · unfold timerFire
    rw [if_neg hc]
    exact ⟨h1, h2, h3, h4⟩

theorem inv_disconnect (cfg : Config) (s : MState) (hInv : Inv cfg s) :
    Inv cfg (disconnectFn cfg s) := by
  obtain ⟨h1, h2, h3, h4⟩ := hInv
  have h1' : liveList s.sockets + s.pending.length ≤ 1 := h1
  have hpend : (match s.timeoutRef with
      | some t => s.pending.erase t
      | none => s.pending) = [] := by
    cases href : s.timeoutRef with
    | none =>
        cases hp : s.pending with
        | nil => rfl
        | cons t ts =>
            have := h2 t (by rw [hp]; exact List.mem_cons_self t ts)
            rw [href] at this
            cases this
    | some t0 =>
        rcases pending_len_le_one s.pending (by omega) with h | ⟨t', h⟩
        · rw [h]; rfl
        · have heq : s.timeoutRef = some t' :=
            h2 t' (by rw [h]; exact List.mem_cons_self t' [])
          rw [href] at heq
          injection heq with heq'
          rw [h, heq']
          simp
  have hsock : liveList (match s.wsRef with
      | some i =>
          if s.sockets.getD i SockState.closed = SockState.closed then s.sockets
          else s.sockets.set i SockState.closing
      | none => s.sockets) = liveList s.sockets := by
    cases s.wsRef with
    | none => rfl
    | some i =>
        dsimp only
        by_cases hg : s.sockets.getD i SockState.closed = SockState.closed
        · rw [if_pos hg]
        · rw [if_neg hg]
          exact liveList_set_nonclosed s.sockets i SockState.closing hg (by decide)
  rw [disconnectFn_eq]
  refine ⟨?_, ?_, ?_, Nat.le_refl _⟩
  · show liveList _ + (match s.timeoutRef with
        | some t => s.pending.erase t
        | none => s.pending).length ≤ 1
    rw [hpend, hsock]
    simp only [List.length_nil]
    omega
  · intro t ht
    rw [hpend] at ht
    exact absurd ht (List.not_mem_nil t)
  · intro t ht
    rw [hpend] at ht
    exact absurd ht (List.not_mem_nil t)

theorem inv_init (cfg : Config) : Inv cfg initState :=
  ⟨Nat.zero_le _,
    fun t ht => absurd ht (List.not_mem_nil t),
    fun t ht => absurd ht (List.not_mem_nil t),
    Nat.zero_le _⟩

theorem inv_step (cfg : Config) (s : MState) (e : Event) (hInv : Inv cfg s)
    (hq : e = Event.connectCall → quiescent s = true) :
    Inv cfg (step cfg s e) := by
  cases e with
  | connectCall => exact inv_connect cfg s hInv (hq rfl)
  | disconnectCall => exact inv_disconnect cfg s hInv
  | openEvt i => exact inv_open cfg s i hInv
  | closeEvt i => exact inv_close cfg s i hInv
  | fireEvt t => exact inv_fire cfg s t hInv

theorem disciplined_inv (cfg : Config) :
    ∀ (es : List Event) (s : MState), Inv cfg s →
    disciplined cfg s es = true → Inv cfg (runFrom cfg s es) := by
  intro es
  induction es with
  | nil => intro s hInv _; exact hInv
  | cons e rest ih =>
      intro s hInv hd
      simp only [disciplined, Bool.and_eq_true] at hd
      have hq : e = Event.connectCall → quiescent s = true := by
        intro he
        rw [he] at hd
        exact hd.1.2
      exact ih (step cfg s e) (inv_step cfg s e hInv hq) hd.2

end Manager

namespace Manager

theorem disconnect_pending_nil (cfg : Config) (s : MState) (hInv : Inv cfg s) :
    (match s.timeoutRef with
      | some t => s.pending.erase t
      | none => s.pending) = [] := by
  obtain ⟨h1, h2, _, _⟩ := hInv
  have h1' : liveList s.sockets + s.pending.length ≤ 1 := h1
  cases href : s.timeoutRef with
  | none =>
      cases hp : s.pending with
      | nil => rfl
      | cons t ts =>
          have := h2 t (by rw [hp]; exact List.mem_cons_self t ts)
          rw [href] at this
          cases this
  | some t0 =>
      rcases pending_len_le_one s.pending (by omega) with h | ⟨t', h⟩
      · rw [h]; rfl
      · have heq : s.timeoutRef = some t' :=
          h2 t' (by rw [h]; exact List.mem_cons_self t' [])
        rw [href] at heq
        injection heq with heq'
        rw [h, heq']
        simp

/-- C2 (counterexample): the reconnect-attempt counter *can* exceed the
configured maximum.  With `maxReconnectAttempts = 1`: a failed connect
schedules retry timer 0; an explicit `connect()` during that pending retry
creates a second socket whose close schedules timer 1 without cancelling
timer 0; the two timers then fire in turn, each incrementing the counter,
ending at 2 > 1 — every event of the trace occurring in a state where its
guard holds. -/
theorem reconnect_attempts_exceed_max :
    validTrace ⟨1⟩ initState
        [.connectCall, .closeEvt 0, .connectCall, .closeEvt 1,
         .fireEvt 0, .fireEvt 1] = true ∧
    (run ⟨1⟩
        [.connectCall, .closeEvt 0, .connectCall, .closeEvt 1,
         .fireEvt 0, .fireEvt 1]).attempts = 2 ∧
    (⟨1⟩ : Config).maxAttempts = 1 := by
  decide

/-- C2 (amended): under the single-connection discipline — `connect()` is
invoked explicitly only when no socket is live and no retry timer is
pending — the counter never exceeds the maximum; a close arriving with the
counter at the maximum leaves the manager stabilized (`disconnected`,
nothing pending, all sockets closed); every non-`connect` event keeps a
stabilized manager stabilized, with status `disconnected` and no automatic
connect call; and a successful open resets the counter to 0. -/
theorem reconnect_bounded_under_discipline :
    (∀ (cfg : Config) (es : List Event),
        disciplined cfg initState es = true →
        (run cfg es).attempts ≤ cfg.maxAttempts) ∧
    (∀ (cfg : Config) (s : MState) (i : Nat),
        Inv cfg s → s.attempts = cfg.maxAttempts →
        ¬ s.sockets.getD i SockState.closed = SockState.closed →
        Stabilized cfg (step cfg s (.closeEvt i))) ∧
    (∀ (cfg : Config) (s : MState) (e : Event),
        Stabilized cfg s → ¬ e = Event.connectCall →
        (step cfg s e).status = .disconnected ∧
        (step cfg s e).autoConnects = s.autoConnects ∧
        Stabilized cfg (step cfg s e)) ∧
    (∀ (cfg : Config) (s : MState) (i : Nat),
        s.sockets.getD i SockState.closed = SockState.connecting →
        (step cfg s (.openEvt i)).attempts = 0) := by
  refine ⟨?_, ?_, ?_, ?_⟩
  · intro cfg es hd
    exact (disciplined_inv cfg es initState (inv_init cfg) hd).2.2.2
  · intro cfg s i hInv hmax hg
    obtain ⟨h1, h2, h3, h4⟩ := hInv
    have hlive : liveList (s.sockets.set i SockState.closed) + 1 = liveList s.sockets :=
      liveList_set_closed s.sockets i hg
    have h1' : liveList s.sockets + s.pending.length ≤ 1 := h1
    have hpend : s.pending = [] := List.eq_nil_of_length_eq_zero (by omega)
    have hnlt : ¬ s.attempts < cfg.maxAttempts := by omega
    have hstep : step cfg s (.closeEvt i)
        = { s with
            sockets := s.sockets.set i SockState.closed,
            status := .disconnected } := by
      show closeEvent cfg s i = _
      unfold closeEvent
      rw [if_neg hg]
      dsimp only
      rw [if_neg hnlt]
    rw [hstep]
    refine ⟨rfl, hmax, hpend, ?_⟩
    show liveList (s.sockets.set i SockState.closed) = 0
    omega
  · intro cfg s e hs he
    obtain ⟨hst, hat, hpe, hlv⟩ := hs
    have hlv' : liveList s.sockets = 0 := hlv
    have hall : ∀ i, s.sockets.getD i SockState.closed = SockState.closed :=
      liveList_zero_getD s.sockets hlv'
    cases e with
    | connectCall => exact absurd rfl he
    | disconnectCall =>
        have hpend' : (match s.timeoutRef with
            | some t => s.pending.erase t
            | none => s.pending) = [] := by
          cases s.timeoutRef with
          | none => exact hpe
          | some t => rw [hpe]; rfl
        have hsock' : (match s.wsRef with
            | some i =>
                if s.sockets.getD i SockState.closed = SockState.closed then s.sockets
                else s.sockets.set i SockState.closing
            | none => s.sockets) = s.sockets := by
          cases s.wsRef with
          | none => rfl
          | some i => dsimp only; rw [if_pos (hall i)]
        rw [show step cfg s Event.disconnectCall = disconnectFn cfg s from rfl,
          disconnectFn_eq]
        refine ⟨hst, rfl, hst, rfl, hpend', ?_⟩
        show liveList _ = 0
        rw [hsock']
        exact hlv'
    | openEvt i =>
        have hnc : ¬ s.sockets.getD i SockState.closed = SockState.connecting := by
          rw [hall i]; decide
        rw [show step cfg s (Event.openEvt i) = openEvent s i from rfl]
        unfold openEvent
        rw [if_neg hnc]
        exact ⟨hst, rfl, hst, hat, hpe, hlv⟩
    | closeEvt i =>
        rw [show step cfg s (Event.closeEvt i) = closeEvent cfg s i from rfl]
        unfold closeEvent
        rw [if_pos (hall i)]
        exact ⟨hst, rfl, hst, hat, hpe, hlv⟩
    | fireEvt t =>
        have hnc : ¬ (s.pending.contains t = true) := by
          intro h
          rw [hpe] at h
          simp at h
        rw [show step cfg s (Event.fireEvt t) = timerFire s t from rfl]
        unfold timerFire
        rw [if_neg hnc]
        exact ⟨hst, rfl, hst, hat, hpe, hlv⟩
  · intro cfg s i hg
    rw [show step cfg s (Event.openEvt i) = openEvent s i from rfl]
    unfold openEvent
    rw [if_pos hg]

/-- Witness for the amended C2 at concrete configurations and traces
(`max = 1`). -/
theorem reconnect_bounded_under_discipline_witness :
    (disciplined ⟨1⟩ initState [.connectCall, .closeEvt 0, .fireEvt 0] = true ∧
      (run ⟨1⟩ [.connectCall, .closeEvt 0, .fireEvt 0]).attempts ≤ 1) ∧
    Stabilized ⟨1⟩
      (step ⟨1⟩ (run ⟨1⟩ [.connectCall, .closeEvt 0, .fireEvt 0]) (.closeEvt 1)) ∧
    (step ⟨1⟩
        (step ⟨1⟩ (run ⟨1⟩ [.connectCall, .closeEvt 0, .fireEvt 0]) (.closeEvt 1))
        (.fireEvt 5)).status = .disconnected ∧
    (step ⟨1⟩ (run ⟨1⟩ [.connectCall]) (.openEvt 0)).attempts = 0 := by
  refine ⟨⟨by decide, ?_⟩, ?_, ?_, ?_⟩
  · exact reconnect_bounded_under_discipline.1 ⟨1⟩
      [.connectCall, .closeEvt 0, .fireEvt 0] (by decide)
  · exact reconnect_bounded_under_discipline.2.1 ⟨1⟩
      (run ⟨1⟩ [.connectCall, .closeEvt 0, .fireEvt 0]) 1
      (by decide) (by decide) (by decide)
  · exact (reconnect_bounded_under_discipline.2.2.1 ⟨1⟩
      (step ⟨1⟩ (run ⟨1⟩ [.connectCall, .closeEvt 0, .fireEvt 0]) (.closeEvt 1))
      (.fireEvt 5) (by decide) (by decide)).1
  · exact reconnect_bounded_under_discipline.2.2.2 ⟨1⟩
      (run ⟨1⟩ [.connectCall]) 0 (by decide)

/-- C7 (counterexample): two retry timers can be pending at once, so
scheduling a new retry does *not* cancel the previous one: after a failed
connect schedules timer 0, an explicit `connect()` and a second close
schedule timer 1 while timer 0 is still pending — the `onclose` handler
overwrites `reconnectTimeoutRef` without any `clearTimeout`. -/
theorem two_retry_timers_pending :
    validTrace ⟨5⟩ initState
        [.connectCall, .closeEvt 0, .connectCall, .closeEvt 1] = true ∧
    (run ⟨5⟩ [.connectCall, .closeEvt 0, .connectCall, .closeEvt 1]).pending
      = [1, 0] ∧
    (run ⟨5⟩ [.connectCall, .closeEvt 0, .connectCall, .closeEvt 1]).pending.length
      = 2 := by
  decide

/-- C7 (amended): scheduling a retry prepends a fresh timer to the pending
set and repoints `reconnectTimeoutRef` at it *without cancelling* the
previously pending timer; `disconnect()` cancels the timer the ref names —
which, in any state satisfying the run invariant, empties the pending set;
and under the single-connection discipline at most one retry timer is ever
pending. -/
theorem retry_timer_management :
    (∀ (cfg : Config) (s : MState) (i : Nat),
        ¬ s.sockets.getD i SockState.closed = SockState.closed →
        s.attempts < cfg.maxAttempts →
        (step cfg s (.closeEvt i)).pending = s.nextTimer :: s.pending ∧
        (step cfg s (.closeEvt i)).timeoutRef = some s.nextTimer) ∧
    (∀ (cfg : Config) (s : MState),
        Inv cfg s → (step cfg s .disconnectCall).pending = []) ∧
    (∀ (cfg : Config) (es : List Event),
        disciplined cfg initState es = true →
        (run cfg es).pending.length ≤ 1) := by
  refine ⟨?_, ?_, ?_⟩
  · intro cfg s i hg hlt
    have hstep : step cfg s (.closeEvt i)
        = { s with
            sockets := s.sockets.set i SockState.closed,
            status := .reconnecting,
            pending := s.nextTimer :: s.pending,
            timeoutRef := some s.nextTimer,
            nextTimer := s.nextTimer + 1 } := by
      show closeEvent cfg s i = _
      unfold closeEvent
      rw [if_neg hg]
      dsimp only
      rw [if_pos hlt]
    rw [hstep]
    exact ⟨rfl, rfl⟩
  · intro cfg s hInv
    rw [show step cfg s Event.disconnectCall = disconnectFn cfg s from rfl,
      disconnectFn_eq]
    exact disconnect_pending_nil cfg s hInv
  · intro cfg es hd
    have h := (disciplined_inv cfg es initState (inv_init cfg) hd).1
    exact le_trans (Nat.le_add_left _ _) h

/-- Witness for the amended C7 at concrete states and traces. -/
theorem retry_timer_management_witness :
    (step ⟨5⟩ (run ⟨5⟩ [.connectCall]) (.closeEvt 0)).pending = [0] ∧
    (step ⟨5⟩ (run ⟨5⟩ [.connectCall, .closeEvt 0]) .disconnectCall).pending = [] ∧
    (run ⟨5⟩ [.connectCall, .closeEvt 0, .fireEvt 0]).pending.length ≤ 1 := by
  refine ⟨?_, ?_, ?_⟩
  · have h := (retry_timer_management.1 ⟨5⟩ (run ⟨5⟩ [.connectCall]) 0
      (by decide) (by decide)).1
    rw [h]; decide
  · exact retry_timer_management.2.1 ⟨5⟩ (run ⟨5⟩ [.connectCall, .closeEvt 0])
      (by decide)
  · exact retry_timer_management.2.2 ⟨5⟩
      [.connectCall, .closeEvt 0, .fireEvt 0] (by decide)

end Manager
